import Mathlib

/-!
A verification development for the Shoot Manager repository: a two-bucket
record store (`src/server/storage.ts`), an HTTP route layer
(`src/server/routes.ts`) and a client-side monthly statistics aggregation
(`src/app/(tabs)/stats.tsx`).

Modelling conventions (shallow embedding):
* ISO-8601 timestamp strings (`new Date().toISOString()`) are modelled as
  natural numbers ordered as the strings are (lexicographic order on ISO
  strings agrees with time order).
* `randomUUID()` is modelled by passing the generated identifier as an
  explicit argument; where a property depends on uniqueness of generated
  UUIDs, that uniqueness appears as an explicit freshness hypothesis.
* A JavaScript `number` is modelled by `JsNum`: either `NaN` (or another
  non-finite value) or a finite rational.
* Each storage operation in the source performs `readData()` once, mutates
  the parsed document in memory and calls `writeData` at most once.  An
  operation is therefore modelled as a function from the parsed document
  (`DataStore`) to its result together with the list of documents passed to
  `writeData` (empty or a singleton), so that "no write happened" and
  "exactly one write happened" are directly statable.
-/

/-- A JavaScript number: `nan` stands for NaN (or any non-finite value),
`num q` for a finite number, modelled as a rational. -/
inductive JsNum where
  | nan : JsNum
  | num : ℚ → JsNum
deriving DecidableEq, Repr

/-- `Shoot` from `src/shared/schema.ts` (the pending bucket).  The `date`
field is the raw date string exactly as stored. -/
structure Shoot where
  id : String
  modelName : String
  salonName : String
  date : String
  price : JsNum
  createdAt : Nat
  updatedAt : Nat
deriving DecidableEq, Repr

/-- `EditedShoot` from `src/shared/schema.ts` (the edited bucket). -/
structure EditedShoot where
  id : String
  originalShootId : String
  modelName : String
  salonName : String
  date : String
  price : JsNum
  createdAt : Nat
  editedAt : Nat
deriving DecidableEq, Repr

/-- `ShootFormData` from `src/shared/schema.ts`. -/
structure ShootFormData where
  modelName : String
  salonName : String
  date : String
  price : JsNum
deriving DecidableEq, Repr

/-- The persisted document `DataStore` from `src/server/storage.ts`:
one JSON document with the two top-level arrays. -/
structure DataStore where
  shoots : List Shoot
  editedShoots : List EditedShoot
deriving DecidableEq, Repr

/-- The empty two-bucket document `{ shoots: [], editedShoots: [] }`. -/
def emptyStore : DataStore := ⟨[], []⟩

/-- The state of the persisted file `data.json`: absent, present but
unreadable (I/O or JSON-parse failure), or a readable document. -/
inductive FileState where
  | missing : FileState
  | corrupt : FileState
  | stored : DataStore → FileState

/-- `readData` from `src/server/storage.ts`: if the file exists and parses,
its content; on a missing file, or on any read or parse error (caught by the
`try`/`catch`), the empty two-bucket document. -/
def readData : FileState → DataStore
  | FileState.missing => emptyStore
  | FileState.corrupt => emptyStore
  | FileState.stored d => d

/-! ### List helpers modelling `findIndex` followed by `splice`/assignment

`findIndex` locates the first element satisfying the predicate; mutating at
that index is modelled by structural recursion that transforms the first
match.  `updateFirst` returns the transformed element together with the new
list; `removeFirst` returns the removed element together with the remaining
list; both return `none` exactly when `findIndex` returns `-1`. -/

def updateFirst (p : α → Bool) (f : α → α) : List α → Option (α × List α)
  | [] => none
  | x :: xs =>
    if p x then some (f x, f x :: xs)
    else (updateFirst p f xs).map (fun r => (r.1, x :: r.2))

def removeFirst (p : α → Bool) : List α → Option (α × List α)
  | [] => none
  | x :: xs =>
    if p x then some (x, xs)
    else (removeFirst p xs).map (fun r => (r.1, x :: r.2))

/-! ### Storage operations (`src/server/storage.ts`)

Each operation takes the parsed document and returns its result paired with
the list of documents written (`writeData` calls), in order. -/

/-- The id predicate `(s) => s.id === id` used by `find?`, `findIndex`. -/
def shootHasId (id : String) (s : Shoot) : Bool := s.id == id

/-- The id predicate on the edited bucket. -/
def editedHasId (id : String) (s : EditedShoot) : Bool := s.id == id

/-- The object spread `{ ...old, ...form, updatedAt: now }`: replaces the
four form fields and the update timestamp, keeps `id` and `createdAt`. -/
def applyForm (form : ShootFormData) (now : Nat) (s : Shoot) : Shoot :=
  { s with modelName := form.modelName, salonName := form.salonName,
           date := form.date, price := form.price, updatedAt := now }

/-- The object spread `{ ...old, ...form, editedAt: now }`: replaces the
four form fields and the edit timestamp, keeps `id`, `originalShootId` and
`createdAt`. -/
def applyFormEdited (form : ShootFormData) (now : Nat) (s : EditedShoot) : EditedShoot :=
  { s with modelName := form.modelName, salonName := form.salonName,
           date := form.date, price := form.price, editedAt := now }

/-- `getShoots`: returns the pending bucket; no write. -/
def getShoots (d : DataStore) : List Shoot × List DataStore :=
  (d.shoots, [])

/-- `getShootById`: first pending shoot with the given id; no write. -/
def getShootById (d : DataStore) (id : String) : Option Shoot :=
  d.shoots.find? (shootHasId id)

/-- `createShoot`: appends a fresh Shoot with `createdAt = updatedAt = now`
and writes once.  `freshId` is the value returned by `randomUUID()`. -/
def createShoot (d : DataStore) (form : ShootFormData) (freshId : String)
    (now : Nat) : Shoot × List DataStore :=
  let shoot : Shoot :=
    { id := freshId, modelName := form.modelName, salonName := form.salonName,
      date := form.date, price := form.price, createdAt := now, updatedAt := now }
  (shoot, [{ d with shoots := d.shoots ++ [shoot] }])

/-- `updateShoot`: replaces the form fields of the first pending shoot with
the given id and sets `updatedAt := now`; `none` (null) and no write when the
id is absent. -/
def updateShoot (d : DataStore) (id : String) (form : ShootFormData)
    (now : Nat) : Option Shoot × List DataStore :=
  match updateFirst (shootHasId id) (applyForm form now) d.shoots with
  | none => (none, [])
  | some (u, l) => (some u, [{ d with shoots := l }])

/-- `deleteShoot`: removes the first pending shoot with the given id;
`false` (here `none`) and no write when absent. -/
def deleteShoot (d : DataStore) (id : String) : Option Unit × List DataStore :=
  match removeFirst (shootHasId id) d.shoots with
  | none => (none, [])
  | some (_, l) => (some (), [{ d with shoots := l }])

/-- `moveShootToEdited`: removes the first pending shoot with the given id,
appends to the edited bucket a new `EditedShoot` with a fresh id, the
original content fields and `createdAt`, `originalShootId` set to the old id
and `editedAt := now`; one write.  `none` and no write when the id is
absent. -/
def moveShootToEdited (d : DataStore) (id : String) (freshId : String)
    (now : Nat) : Option EditedShoot × List DataStore :=
  match removeFirst (shootHasId id) d.shoots with
  | none => (none, [])
  | some (shoot, rest) =>
    let editedShoot : EditedShoot :=
      { id := freshId, originalShootId := shoot.id, modelName := shoot.modelName,
        salonName := shoot.salonName, date := shoot.date, price := shoot.price,
        createdAt := shoot.createdAt, editedAt := now }
    (some editedShoot,
      [{ shoots := rest, editedShoots := d.editedShoots ++ [editedShoot] }])

/-- `getEditedShoots`: returns the edited bucket; no write. -/
def getEditedShoots (d : DataStore) : List EditedShoot × List DataStore :=
  (d.editedShoots, [])

/-- `getEditedShootById`: first edited shoot with the given id; no write. -/
def getEditedShootById (d : DataStore) (id : String) : Option EditedShoot :=
  d.editedShoots.find? (editedHasId id)

/-- `updateEditedShoot`: replaces the form fields of the first edited shoot
with the given id and sets `editedAt := now`; `none` and no write when the
id is absent.  `id`, `originalShootId` and `createdAt` are untouched by the
spread. -/
def updateEditedShoot (d : DataStore) (id : String) (form : ShootFormData)
    (now : Nat) : Option EditedShoot × List DataStore :=
  match updateFirst (editedHasId id) (applyFormEdited form now) d.editedShoots with
  | none => (none, [])
  | some (u, l) => (some u, [{ d with editedShoots := l }])

/-- `moveEditedShootBack`: removes the first edited shoot with the given id,
appends to the pending bucket a new `Shoot` with a fresh id, the original
content fields and `createdAt`, and `updatedAt := now`; one write.  `none`
and no write when the id is absent. -/
def moveEditedShootBack (d : DataStore) (id : String) (freshId : String)
    (now : Nat) : Option Shoot × List DataStore :=
  match removeFirst (editedHasId id) d.editedShoots with
  | none => (none, [])
  | some (edited, rest) =>
    let shoot : Shoot :=
      { id := freshId, modelName := edited.modelName, salonName := edited.salonName,
        date := edited.date, price := edited.price,
        createdAt := edited.createdAt, updatedAt := now }
    (some shoot,
      [{ shoots := d.shoots ++ [shoot], editedShoots := rest }])

/-- `deleteEditedShoot`: removes the first edited shoot with the given id;
`none` and no write when absent. -/
def deleteEditedShoot (d : DataStore) (id : String) : Option Unit × List DataStore :=
  match removeFirst (editedHasId id) d.editedShoots with
  | none => (none, [])
  | some (_, l) => (some (), [{ d with editedShoots := l }])

/-- The document persisted after an operation: the last written document, or
the previous one when no write was performed. -/
def runWrites (d : DataStore) (ws : List DataStore) : DataStore :=
  (ws.getLast?).getD d

/-! ### API Façade (`src/server/routes.ts`)

A request body is modelled up to the distinctions the handlers make:
`modelName`, `salonName`, `date` are absent (`none`, covering
null/undefined) or a string (JavaScript truthiness makes `""` falsy, so the
`!field` checks reject both absent and empty strings); `price` is recorded
as the value `Number(price)` would produce, with `none` for null/undefined
(the `price == null` test) — `some JsNum.nan` therefore models a present
but non-numeric value and `some (JsNum.num q)` a present numeric one. -/

structure ReqBody where
  modelName : Option String
  salonName : Option String
  date : Option String
  price : Option JsNum
deriving DecidableEq, Repr

/-- JavaScript truthiness of an optional string field: absent, null and `""`
are falsy. -/
def truthy : Option String → Bool
  | none => false
  | some s => s != ""

/-- The validation guard shared by `POST /api/shoots`, `PUT /api/shoots/:id`
and `PUT /api/edited-shoots/:id`:
`!modelName || !salonName || !date || price == null` fails the request. -/
def bodyValid (b : ReqBody) : Bool :=
  truthy b.modelName && truthy b.salonName && truthy b.date && b.price.isSome

/-- Handler for `POST /api/shoots`.  Returns the response status, the form
passed to the store (`none` when the store was not invoked) and the list of
documents written. -/
def postShoots (d : DataStore) (b : ReqBody) (freshId : String) (now : Nat) :
    Nat × Option ShootFormData × List DataStore :=
  match b.modelName, b.salonName, b.date, b.price with
  | some m, some sa, some dt, some p =>
    if m = "" ∨ sa = "" ∨ dt = "" then (400, none, [])
    else
      let form : ShootFormData := ⟨m, sa, dt, p⟩
      let r := createShoot d form freshId now
      (201, some form, r.2)
  | _, _, _, _ => (400, none, [])

/-- Handler for `PUT /api/shoots/:id`: the validation guard runs first, then
the store is invoked; a null store result maps to 404, otherwise 200. -/
def putShoot (d : DataStore) (idp : String) (b : ReqBody) (now : Nat) :
    Nat × Option ShootFormData × List DataStore :=
  match b.modelName, b.salonName, b.date, b.price with
  | some m, some sa, some dt, some p =>
    if m = "" ∨ sa = "" ∨ dt = "" then (400, none, [])
    else
      let form : ShootFormData := ⟨m, sa, dt, p⟩
      let r := updateShoot d idp form now
      (if r.1.isSome then 200 else 404, some form, r.2)
  | _, _, _, _ => (400, none, [])

/-- Handler for `PUT /api/edited-shoots/:id`: same shape as `putShoot` over
the edited bucket. -/
def putEditedShoot (d : DataStore) (idp : String) (b : ReqBody) (now : Nat) :
    Nat × Option ShootFormData × List DataStore :=
  match b.modelName, b.salonName, b.date, b.price with
  | some m, some sa, some dt, some p =>
    if m = "" ∨ sa = "" ∨ dt = "" then (400, none, [])
    else
      let form : ShootFormData := ⟨m, sa, dt, p⟩
      let r := updateEditedShoot d idp form now
      (if r.1.isSome then 200 else 404, some form, r.2)
  | _, _, _, _ => (400, none, [])

/-! ### Monthly statistics (`src/app/(tabs)/stats.tsx`) -/

/-- The mutating storage operations, with the `randomUUID()` result and the
current time as explicit data. -/
inductive StoreOp where
  | create (form : ShootFormData) (freshId : String) (now : Nat)
  | update (id : String) (form : ShootFormData) (now : Nat)
  | remove (id : String)
  | move (id : String) (freshId : String) (now : Nat)
  | updateEdited (id : String) (form : ShootFormData) (now : Nat)
  | moveBack (id : String) (freshId : String) (now : Nat)
  | removeEdited (id : String)

/-- The document persisted after running one operation against the current
document. -/
def applyOp (d : DataStore) : StoreOp → DataStore
  | StoreOp.create form fid now => runWrites d (createShoot d form fid now).2
  | StoreOp.update id form now => runWrites d (updateShoot d id form now).2
  | StoreOp.remove id => runWrites d (deleteShoot d id).2
  | StoreOp.move id fid now => runWrites d (moveShootToEdited d id fid now).2
  | StoreOp.updateEdited id form now => runWrites d (updateEditedShoot d id form now).2
  | StoreOp.moveBack id fid now => runWrites d (moveEditedShootBack d id fid now).2
  | StoreOp.removeEdited id => runWrites d (deleteEditedShoot d id).2

/-- Every identifier currently present, in either bucket. -/
def allIds (d : DataStore) : List String :=
  d.shoots.map Shoot.id ++ d.editedShoots.map EditedShoot.id

/-- The model of `randomUUID()` freshness: an identifier minted for an
operation differs from every identifier currently present. -/
def opFresh (d : DataStore) : StoreOp → Prop
  | StoreOp.create _ fid _ => fid ∉ allIds d
  | StoreOp.move _ fid _ => fid ∉ allIds d
  | StoreOp.moveBack _ fid _ => fid ∉ allIds d
  | _ => True

/-- The documents reachable from the empty store by storage operations whose
minted identifiers are fresh. -/
inductive Reachable : DataStore → Prop
  | empty : Reachable emptyStore
  | step {d : DataStore} (op : StoreOp) : Reachable d → opFresh d op →
      Reachable (applyOp d op)

/-! ### Lemmas about the first-match list helpers -/

theorem updateFirst_isSome {α : Type} (p : α → Bool) (f : α → α) (l : List α) :
    (updateFirst p f l).isSome = l.any p := by
  induction l with
  | nil => rfl
  | cons x xs ih =>
    by_cases hp : p x <;> simp [updateFirst, hp, ih]

theorem removeFirst_isSome {α : Type} (p : α → Bool) (l : List α) :
    (removeFirst p l).isSome = l.any p := by
  induction l with
  | nil => rfl
  | cons x xs ih =>
    by_cases hp : p x <;> simp [removeFirst, hp, ih]

theorem removeFirst_eq_some {α : Type} {p : α → Bool} {l : List α} {a : α}
    {l' : List α} (h : removeFirst p l = some (a, l')) :
    ∃ l1 l2, l = l1 ++ a :: l2 ∧ l' = l1 ++ l2 ∧ p a = true ∧
      ∀ x ∈ l1, p x = false := by
  induction l generalizing a l' with
  | nil => simp [removeFirst] at h
  | cons x xs ih =>
    by_cases hp : p x
    · simp [removeFirst, hp] at h
      exact ⟨[], xs, by simp [h.1], by simp [h.2], h.1 ▸ hp, by simp⟩
    · have h' : (removeFirst p xs).map (fun r => (r.1, x :: r.2)) = some (a, l') := by
        simpa [removeFirst, hp] using h
      obtain ⟨⟨b, m⟩, hrec, hmap⟩ := Option.map_eq_some'.mp h'
      simp only [Prod.mk.injEq] at hmap
      obtain ⟨hb, hl⟩ := hmap
      obtain ⟨l1, l2, heq, hm, hpa, hl1⟩ := ih (hb ▸ hrec)
      refine ⟨x :: l1, l2, by simp [heq], by simp [← hl, hm], hpa, ?_⟩
      intro y hy
      rcases List.mem_cons.mp hy with rfl | hy
      · simpa using hp
      · exact hl1 y hy

theorem updateFirst_eq_some {α : Type} {p : α → Bool} {f : α → α} {l : List α}
    {b : α} {l' : List α} (h : updateFirst p f l = some (b, l')) :
    ∃ l1 x l2, l = l1 ++ x :: l2 ∧ b = f x ∧ l' = l1 ++ f x :: l2 ∧
      p x = true ∧ ∀ y ∈ l1, p y = false := by
  induction l generalizing b l' with
  | nil => simp [updateFirst] at h
  | cons x xs ih =>
    by_cases hp : p x
    · simp [updateFirst, hp] at h
      exact ⟨[], x, xs, rfl, h.1.symm, by simp [h.2], hp, by simp⟩
    · have h' : (updateFirst p f xs).map (fun r => (r.1, x :: r.2)) = some (b, l') := by
        simpa [updateFirst, hp] using h
      obtain ⟨⟨c, m⟩, hrec, hmap⟩ := Option.map_eq_some'.mp h'
      simp only [Prod.mk.injEq] at hmap
      obtain ⟨hc, hl⟩ := hmap
      obtain ⟨l1, y, l2, heq, hb, hm, hpy, hl1⟩ := ih (hc ▸ hrec)
      refine ⟨x :: l1, y, l2, by simp [heq], hb, by simp [← hl, hm], hpy, ?_⟩
      intro z hz
      rcases List.mem_cons.mp hz with rfl | hz
      · simpa using hp
      · exact hl1 z hz

theorem removeFirst_of_find? {α : Type} {p : α → Bool} {l : List α} {a : α}
    (h : l.find? p = some a) :
    ∃ l', removeFirst p l = some (a, l') := by
  induction l with
  | nil => simp at h
  | cons x xs ih =>
    by_cases hp : p x
    · rw [List.find?_cons_of_pos _ hp] at h
      exact ⟨xs, by simp [removeFirst, hp, ← Option.some_inj.mp h]⟩
    · rw [List.find?_cons_of_neg _ hp] at h
      obtain ⟨l', hl'⟩ := ih h
      exact ⟨x :: l', by simp [removeFirst, hp, hl']⟩

theorem find?_append_of_none {α : Type} {p : α → Bool} {l1 : List α}
    (l2 : List α) (h : ∀ x ∈ l1, p x = false) :
    (l1 ++ l2).find? p = l2.find? p := by
  induction l1 with
  | nil => rfl
  | cons x xs ih =>
    have hx : ¬ p x := by simp [h x (by simp)]
    rw [List.cons_append, List.find?_cons_of_neg _ hx]
    exact ih fun y hy => h y (by simp [hy])

/-- C8: on a missing or unreadable persisted document, `readData` yields the
empty two-bucket document — from which every read and mutation then
proceeds — and these are the only two ways a file state is not read back
verbatim. -/
theorem c8_unreadable_storage_reads_empty :
    readData FileState.missing = emptyStore ∧
    readData FileState.corrupt = emptyStore ∧
    ∀ fs : FileState, readData fs = emptyStore ∨
      ∃ d, fs = FileState.stored d ∧ readData fs = d := by
  refine ⟨rfl, rfl, fun fs => ?_⟩
  cases fs with
  | missing => exact Or.inl rfl
  | corrupt => exact Or.inl rfl
  | stored d => exact Or.inr ⟨d, rfl, rfl⟩

/-- C6: for every valid input, `createShoot` followed by `getShootById` on
the returned id yields a record with exactly the input's model, salon, date
and price, and with `createdAt = updatedAt`.  The hypothesis is the
`randomUUID()` freshness of the generated id. -/
theorem c6_create_then_get (d : DataStore) (form : ShootFormData)
    (freshId : String) (now : Nat)
    (hfresh : ∀ s ∈ d.shoots, s.id ≠ freshId) :
    ∃ sh ws, createShoot d form freshId now = (sh, ws) ∧
      getShootById (runWrites d ws) freshId = some sh ∧
      sh.modelName = form.modelName ∧ sh.salonName = form.salonName ∧
      sh.date = form.date ∧ sh.price = form.price ∧
      sh.createdAt = sh.updatedAt := by
  refine ⟨_, _, rfl, ?_, rfl, rfl, rfl, rfl, rfl⟩
  show List.find? _ (_ ++ _) = _
  rw [find?_append_of_none _ (fun s hs => by simp [shootHasId, hfresh s hs])]
  simp [shootHasId]

/-- C6 witness: the theorem applied to the empty store at a concrete
input. -/
theorem c6_create_then_get_witness :
    ∃ sh ws,
      createShoot emptyStore ⟨"Ava", "Luxe", "2024-03-01", JsNum.num 150⟩ "id-1" 5 =
        (sh, ws) ∧
      getShootById (runWrites emptyStore ws) "id-1" = some sh ∧
      sh.modelName = "Ava" ∧ sh.salonName = "Luxe" ∧
      sh.date = "2024-03-01" ∧ sh.price = JsNum.num 150 ∧
      sh.createdAt = sh.updatedAt :=
  c6_create_then_get emptyStore ⟨"Ava", "Luxe", "2024-03-01", JsNum.num 150⟩
    "id-1" 5 (by simp [emptyStore])

/-- C4: each mutating operation reports not-found exactly when the id is
absent from the targeted bucket, performs no write in that case (so the
persisted document, `runWrites` of an empty write list, is unchanged), and
on success issues exactly one write (the full next-state document, never
separate delete and insert writes). -/
theorem c4_all_or_nothing_single_write (d : DataStore) (id : String)
    (form : ShootFormData) (fid : String) (now : Nat) :
    runWrites d [] = d ∧
    ((updateShoot d id form now).1.isSome = d.shoots.any (shootHasId id) ∧
      (updateShoot d id form now).2.length =
        (if (updateShoot d id form now).1.isSome then 1 else 0)) ∧
    ((deleteShoot d id).1.isSome = d.shoots.any (shootHasId id) ∧
      (deleteShoot d id).2.length =
        (if (deleteShoot d id).1.isSome then 1 else 0)) ∧
    ((moveShootToEdited d id fid now).1.isSome = d.shoots.any (shootHasId id) ∧
      (moveShootToEdited d id fid now).2.length =
        (if (moveShootToEdited d id fid now).1.isSome then 1 else 0)) ∧
    ((updateEditedShoot d id form now).1.isSome =
        d.editedShoots.any (editedHasId id) ∧
      (updateEditedShoot d id form now).2.length =
        (if (updateEditedShoot d id form now).1.isSome then 1 else 0)) ∧
    ((moveEditedShootBack d id fid now).1.isSome =
        d.editedShoots.any (editedHasId id) ∧
      (moveEditedShootBack d id fid now).2.length =
        (if (moveEditedShootBack d id fid now).1.isSome then 1 else 0)) ∧
    ((deleteEditedShoot d id).1.isSome = d.editedShoots.any (editedHasId id) ∧
      (deleteEditedShoot d id).2.length =
        (if (deleteEditedShoot d id).1.isSome then 1 else 0)) := by
  refine ⟨rfl, ⟨?_, ?_⟩, ⟨?_, ?_⟩, ⟨?_, ?_⟩, ⟨?_, ?_⟩, ⟨?_, ?_⟩, ⟨?_, ?_⟩⟩
  · rw [← updateFirst_isSome (shootHasId id) (applyForm form now) d.shoots]
    cases h : updateFirst (shootHasId id) (applyForm form now) d.shoots with
    | none => simp [updateShoot, h]
    | some r => simp [updateShoot, h]
  · cases h : updateFirst (shootHasId id) (applyForm form now) d.shoots with
    | none => simp [updateShoot, h]
    | some r => simp [updateShoot, h]
  · rw [← removeFirst_isSome (shootHasId id) d.shoots]
    cases h : removeFirst (shootHasId id) d.shoots with
    | none => simp [deleteShoot, h]
    | some r => simp [deleteShoot, h]
  · cases h : removeFirst (shootHasId id) d.shoots with
    | none => simp [deleteShoot, h]
    | some r => simp [deleteShoot, h]
  · rw [← removeFirst_isSome (shootHasId id) d.shoots]
    cases h : removeFirst (shootHasId id) d.shoots with
    | none => simp [moveShootToEdited, h]
    | some r => simp [moveShootToEdited, h]
  · cases h : removeFirst (shootHasId id) d.shoots with
    | none => simp [moveShootToEdited, h]
    | some r => simp [moveShootToEdited, h]
  · rw [← updateFirst_isSome (editedHasId id) (applyFormEdited form now) d.editedShoots]
    cases h : updateFirst (editedHasId id) (applyFormEdited form now) d.editedShoots with
    | none => simp [updateEditedShoot, h]
    | some r => simp [updateEditedShoot, h]
  · cases h : updateFirst (editedHasId id) (applyFormEdited form now) d.editedShoots with
    | none => simp [updateEditedShoot, h]
    | some r => simp [updateEditedShoot, h]
  · rw [← removeFirst_isSome (editedHasId id) d.editedShoots]
    cases h : removeFirst (editedHasId id) d.editedShoots with
    | none => simp [moveEditedShootBack, h]
    | some r => simp [moveEditedShootBack, h]
  · cases h : removeFirst (editedHasId id) d.editedShoots with
    | none => simp [moveEditedShootBack, h]
    | some r => simp [moveEditedShootBack, h]
  · rw [← removeFirst_isSome (editedHasId id) d.editedShoots]
    cases h : removeFirst (editedHasId id) d.editedShoots with
    | none => simp [deleteEditedShoot, h]
    | some r => simp [deleteEditedShoot, h]
  · cases h : removeFirst (editedHasId id) d.editedShoots with
    | none => simp [deleteEditedShoot, h]
    | some r => simp [deleteEditedShoot, h]

/-- C1: for a store whose pending identifiers are unique (the documented
bucket invariant) and an id present in the pending bucket,
`moveShootToEdited` removes that shoot from the pending bucket, appends
exactly one new `EditedShoot` to the edited bucket carrying the original
model, salon, date, price and `createdAt`, with `originalShootId` the old id
and `editedAt` the current time; afterwards a pending lookup of the original
id is not-found. -/
theorem c1_move_to_edited (d : DataStore) (id fid : String) (now : Nat)
    (sh : Shoot) (hget : getShootById d id = some sh)
    (hnodup : (d.shoots.map Shoot.id).Nodup) :
    ∃ e d', moveShootToEdited d id fid now = (some e, [d']) ∧
      e.modelName = sh.modelName ∧ e.salonName = sh.salonName ∧
      e.date = sh.date ∧ e.price = sh.price ∧ e.createdAt = sh.createdAt ∧
      e.originalShootId = sh.id ∧ e.editedAt = now ∧
      d'.editedShoots = d.editedShoots ++ [e] ∧
      d'.shoots.length + 1 = d.shoots.length ∧
      (∀ s ∈ d.shoots, s.id ≠ id → s ∈ d'.shoots) ∧
      (∀ s ∈ d'.shoots, s ∈ d.shoots) ∧
      getShootById d' id = none := by
  have hfind : d.shoots.find? (shootHasId id) = some sh := hget
  obtain ⟨rest, hrm⟩ := removeFirst_of_find? hfind
  obtain ⟨l1, l2, hdecomp, hrest, hpsh, hl1⟩ := removeFirst_eq_some hrm
  have hshid : sh.id = id := by simpa [shootHasId] using hpsh
  refine ⟨⟨fid, sh.id, sh.modelName, sh.salonName, sh.date, sh.price, sh.createdAt, now⟩,
    ⟨rest, d.editedShoots ++
      [⟨fid, sh.id, sh.modelName, sh.salonName, sh.date, sh.price, sh.createdAt, now⟩]⟩,
    ?_, rfl, rfl, rfl, rfl, rfl, rfl, rfl, rfl, ?_, ?_, ?_, ?_⟩
  · simp [moveShootToEdited, hrm]
  · rw [hrest, hdecomp]
    simp [List.length_append]
    omega
  · intro s hs hsid
    rw [hdecomp] at hs
    show s ∈ rest
    rw [hrest]
    rcases List.mem_append.mp hs with h1 | h2
    · exact List.mem_append.mpr (Or.inl h1)
    · rcases List.mem_cons.mp h2 with rfl | h3
      · exact absurd hshid hsid
      · exact List.mem_append.mpr (Or.inr h3)
  · intro s hs
    replace hs : s ∈ rest := hs
    rw [hrest] at hs
    rw [hdecomp]
    rcases List.mem_append.mp hs with h1 | h2
    · exact List.mem_append.mpr (Or.inl h1)
    · exact List.mem_append.mpr (Or.inr (List.mem_cons.mpr (Or.inr h2)))
  · show List.find? (shootHasId id) rest = none
    have hn : (sh.id :: l2.map Shoot.id).Nodup := by
      rw [hdecomp, List.map_append, List.map_cons] at hnodup
      exact hnodup.of_append_right
    have hnotin : sh.id ∉ l2.map Shoot.id := (List.nodup_cons.mp hn).1
    rw [hrest]
    apply List.find?_eq_none.mpr
    intro x hx
    rcases List.mem_append.mp hx with h1 | h2
    · simp [hl1 x h1]
    · intro hpx
      have hxid : x.id = id := by simpa [shootHasId] using hpx
      exact hnotin (by rw [hshid, ← hxid]; exact List.mem_map_of_mem Shoot.id h2)

/-- A one-shoot store used as concrete input by witnesses. -/
def sampleShoot : Shoot := ⟨"a", "Ava", "Luxe", "2024-03-01", JsNum.num 150, 1, 1⟩

/-- The store holding only `sampleShoot`. -/
def sampleStore : DataStore := ⟨[sampleShoot], []⟩

/-- C1 witness: the theorem applied to a concrete one-shoot store. -/
theorem c1_move_to_edited_witness :
    ∃ e d', moveShootToEdited sampleStore "a" "b" 7 = (some e, [d']) ∧
      e.modelName = sampleShoot.modelName ∧ e.salonName = sampleShoot.salonName ∧
      e.date = sampleShoot.date ∧ e.price = sampleShoot.price ∧
      e.createdAt = sampleShoot.createdAt ∧
      e.originalShootId = sampleShoot.id ∧ e.editedAt = 7 ∧
      d'.editedShoots = sampleStore.editedShoots ++ [e] ∧
      d'.shoots.length + 1 = sampleStore.shoots.length ∧
      (∀ s ∈ sampleStore.shoots, s.id ≠ "a" → s ∈ d'.shoots) ∧
      (∀ s ∈ d'.shoots, s ∈ sampleStore.shoots) ∧
      getShootById d' "a" = none :=
  c1_move_to_edited sampleStore "a" "b" 7 sampleShoot (by rfl) (by decide)

theorem removeFirst_append_of_none {α : Type} {p : α → Bool} {l1 : List α}
    (l2 : List α) (h : ∀ x ∈ l1, p x = false) :
    removeFirst p (l1 ++ l2) =
      (removeFirst p l2).map (fun r => (r.1, l1 ++ r.2)) := by
  induction l1 with
  | nil =>
    simp only [List.nil_append]
    cases h' : removeFirst p l2 <;> simp [h']
  | cons x xs ih =>
    have hx : p x = false := h x (by simp)
    rw [List.cons_append, removeFirst, if_neg (by simp [hx]),
      ih (fun y hy => h y (by simp [hy]))]
    cases h' : removeFirst p l2 <;> simp [h']

/-- C2: moving a pending shoot to the edited bucket and then moving it back
yields a pending shoot with the original model, salon, date, price and
`createdAt`, under a new identifier that is never the original one.  The
hypotheses model `randomUUID()`: the first minted id is fresh for the edited
bucket and the second differs from the original id. -/
theorem c2_move_roundtrip (d : DataStore) (id fid1 fid2 : String)
    (now1 now2 : Nat) (sh : Shoot)
    (hget : getShootById d id = some sh)
    (hfid1 : ∀ e ∈ d.editedShoots, e.id ≠ fid1)
    (hfid2 : fid2 ≠ sh.id) :
    ∃ e d' sh2 d'', moveShootToEdited d id fid1 now1 = (some e, [d']) ∧
      moveEditedShootBack d' fid1 fid2 now2 = (some sh2, [d'']) ∧
      sh2.modelName = sh.modelName ∧ sh2.salonName = sh.salonName ∧
      sh2.date = sh.date ∧ sh2.price = sh.price ∧
      sh2.createdAt = sh.createdAt ∧ sh2.updatedAt = now2 ∧
      sh2.id = fid2 ∧ sh2.id ≠ sh.id ∧ sh2 ∈ d''.shoots := by
  have hfind : d.shoots.find? (shootHasId id) = some sh := hget
  obtain ⟨rest, hrm⟩ := removeFirst_of_find? hfind
  have hrm2 : removeFirst (editedHasId fid1) (d.editedShoots ++
      [⟨fid1, sh.id, sh.modelName, sh.salonName, sh.date, sh.price, sh.createdAt, now1⟩]) =
      some (⟨fid1, sh.id, sh.modelName, sh.salonName, sh.date, sh.price, sh.createdAt, now1⟩,
        d.editedShoots ++ []) := by
    rw [removeFirst_append_of_none _ (fun x hx => by simp [editedHasId, hfid1 x hx])]
    simp [removeFirst, editedHasId]
  refine ⟨⟨fid1, sh.id, sh.modelName, sh.salonName, sh.date, sh.price, sh.createdAt, now1⟩,
    ⟨rest, d.editedShoots ++
      [⟨fid1, sh.id, sh.modelName, sh.salonName, sh.date, sh.price, sh.createdAt, now1⟩]⟩,
    ⟨fid2, sh.modelName, sh.salonName, sh.date, sh.price, sh.createdAt, now2⟩,
    ⟨rest ++ [⟨fid2, sh.modelName, sh.salonName, sh.date, sh.price, sh.createdAt, now2⟩],
      d.editedShoots ++ []⟩,
    ?_, ?_, rfl, rfl, rfl, rfl, rfl, rfl, rfl, hfid2, by simp⟩
  · simp [moveShootToEdited, hrm]
  · simp [moveEditedShootBack, hrm2]

/-- C2 witness: the theorem applied to a concrete one-shoot store. -/
theorem c2_move_roundtrip_witness :
    ∃ e d' sh2 d'', moveShootToEdited sampleStore "a" "b" 7 = (some e, [d']) ∧
      moveEditedShootBack d' "b" "c" 9 = (some sh2, [d'']) ∧
      sh2.modelName = sampleShoot.modelName ∧ sh2.salonName = sampleShoot.salonName ∧
      sh2.date = sampleShoot.date ∧ sh2.price = sampleShoot.price ∧
      sh2.createdAt = sampleShoot.createdAt ∧ sh2.updatedAt = 9 ∧
      sh2.id = "c" ∧ sh2.id ≠ sampleShoot.id ∧ sh2 ∈ d''.shoots :=
  c2_move_roundtrip sampleStore "a" "b" "c" 7 9 sampleShoot (by rfl)
    (by simp [sampleStore]) (by decide)

theorem updateFirst_of_find? {α : Type} {p : α → Bool} {f : α → α}
    {l : List α} {a : α} (h : l.find? p = some a) :
    ∃ l1 l2, l = l1 ++ a :: l2 ∧
      updateFirst p f l = some (f a, l1 ++ f a :: l2) ∧
      ∀ y ∈ l1, p y = false := by
  induction l with
  | nil => simp at h
  | cons x xs ih =>
    by_cases hp : p x
    · rw [List.find?_cons_of_pos _ hp] at h
      obtain rfl : x = a := Option.some_inj.mp h
      exact ⟨[], xs, rfl, by simp [updateFirst, hp], by simp⟩
    · rw [List.find?_cons_of_neg _ hp] at h
      obtain ⟨l1, l2, heq, hupd, hl1⟩ := ih h
      refine ⟨x :: l1, l2, by simp [heq], ?_, ?_⟩
      · rw [updateFirst, if_neg (by simp [hp]), hupd]
        rfl
      · intro y hy
        rcases List.mem_cons.mp hy with rfl | hy
        · simpa using hp
        · exact hl1 y hy

/-- C7: for every store, updating any present pending (resp. edited) record
replaces exactly the four supplied fields and refreshes `updatedAt` (resp.
`editedAt`) to the strictly later current time, while `id` and `createdAt`
(and `originalShootId` for the edited bucket) are unchanged and every other
record of the document is untouched; the pure reads perform no write.  Each
bucket's statement carries only its own presence and clock hypotheses, so
each applies to every store — also one whose other bucket is empty. -/
theorem c7_update_refreshes_timestamps (d : DataStore) :
    (∀ id form now sh, getShootById d id = some sh → sh.updatedAt < now →
      ∃ u d' l1 l2, updateShoot d id form now = (some u, [d']) ∧
        u.id = sh.id ∧ u.createdAt = sh.createdAt ∧
        u.modelName = form.modelName ∧ u.salonName = form.salonName ∧
        u.date = form.date ∧ u.price = form.price ∧
        u.updatedAt = now ∧ sh.updatedAt < u.updatedAt ∧
        d'.editedShoots = d.editedShoots ∧
        d.shoots = l1 ++ sh :: l2 ∧ d'.shoots = l1 ++ u :: l2) ∧
    (∀ id form now esh, getEditedShootById d id = some esh → esh.editedAt < now →
      ∃ u2 d2' m1 m2, updateEditedShoot d id form now = (some u2, [d2']) ∧
        u2.id = esh.id ∧ u2.originalShootId = esh.originalShootId ∧
        u2.createdAt = esh.createdAt ∧
        u2.modelName = form.modelName ∧ u2.salonName = form.salonName ∧
        u2.date = form.date ∧ u2.price = form.price ∧
        u2.editedAt = now ∧ esh.editedAt < u2.editedAt ∧
        d2'.shoots = d.shoots ∧
        d.editedShoots = m1 ++ esh :: m2 ∧ d2'.editedShoots = m1 ++ u2 :: m2) ∧
    (getShoots d).2 = [] ∧ (getEditedShoots d).2 = [] := by
  refine ⟨?_, ?_, rfl, rfl⟩
  · intro id form now sh hget hnow
    have hfind : d.shoots.find? (shootHasId id) = some sh := hget
    obtain ⟨l1, l2, hdec, hupd, hl1⟩ :=
      updateFirst_of_find? (f := applyForm form now) hfind
    refine ⟨applyForm form now sh,
      ⟨l1 ++ applyForm form now sh :: l2, d.editedShoots⟩, l1, l2,
      ?_, rfl, rfl, rfl, rfl, rfl, rfl, rfl, hnow, rfl, hdec, rfl⟩
    simp [updateShoot, hupd]
  · intro id form now esh hgetE hnowE
    have hfindE : d.editedShoots.find? (editedHasId id) = some esh := hgetE
    obtain ⟨m1, m2, hdecE, hupdE, hm1⟩ :=
      updateFirst_of_find? (f := applyFormEdited form now) hfindE
    refine ⟨applyFormEdited form now esh,
      ⟨d.shoots, m1 ++ applyFormEdited form now esh :: m2⟩, m1, m2,
      ?_, rfl, rfl, rfl, rfl, rfl, rfl, rfl, rfl, hnowE, rfl, hdecE, rfl⟩
    simp [updateEditedShoot, hupdE]

/-- An edited record used as concrete input by witnesses. -/
def sampleEdited : EditedShoot :=
  ⟨"e", "a", "Mia", "Glow", "2024-02-01", JsNum.num 80, 1, 2⟩

/-- A store with one pending and one edited record. -/
def sampleStore2 : DataStore := ⟨[sampleShoot], [sampleEdited]⟩

/-- C7 witness: both bucket statements of the theorem instantiated at a
concrete store, record and form, with the presence and clock hypotheses
discharged by evaluation. -/
theorem c7_update_refreshes_timestamps_witness :
    (∃ u d' l1 l2,
      updateShoot sampleStore2 "a" ⟨"B", "C", "2024-04-01", JsNum.num 200⟩ 5 =
        (some u, [d']) ∧
      u.id = sampleShoot.id ∧ u.createdAt = sampleShoot.createdAt ∧
      u.modelName = "B" ∧ u.salonName = "C" ∧
      u.date = "2024-04-01" ∧ u.price = JsNum.num 200 ∧
      u.updatedAt = 5 ∧ sampleShoot.updatedAt < u.updatedAt ∧
      d'.editedShoots = sampleStore2.editedShoots ∧
      sampleStore2.shoots = l1 ++ sampleShoot :: l2 ∧ d'.shoots = l1 ++ u :: l2) ∧
    (∃ u2 d2' m1 m2,
      updateEditedShoot sampleStore2 "e" ⟨"D", "E", "2024-05-01", JsNum.num 60⟩ 6 =
        (some u2, [d2']) ∧
      u2.id = sampleEdited.id ∧ u2.originalShootId = sampleEdited.originalShootId ∧
      u2.createdAt = sampleEdited.createdAt ∧
      u2.modelName = "D" ∧ u2.salonName = "E" ∧
      u2.date = "2024-05-01" ∧ u2.price = JsNum.num 60 ∧
      u2.editedAt = 6 ∧ sampleEdited.editedAt < u2.editedAt ∧
      d2'.shoots = sampleStore2.shoots ∧
      sampleStore2.editedShoots = m1 ++ sampleEdited :: m2 ∧
      d2'.editedShoots = m1 ++ u2 :: m2) :=
  ⟨(c7_update_refreshes_timestamps sampleStore2).1 "a"
      ⟨"B", "C", "2024-04-01", JsNum.num 200⟩ 5 sampleShoot (by rfl) (by decide),
   (c7_update_refreshes_timestamps sampleStore2).2.1 "e"
      ⟨"D", "E", "2024-05-01", JsNum.num 60⟩ 6 sampleEdited (by rfl) (by decide)⟩

/-- C10: a price of exactly 0 passes the `price == null` check (validation
with price 0 reduces to the three string-field checks); an empty string is
falsy, so an empty `modelName`, `salonName` or `date` — like an absent
`price` — yields 400 with the store untouched, for every store state and
every target id (in particular an absent one), because the guard runs
before the id lookup. -/
theorem c10_zero_price_and_empty_fields (d : DataStore) (idp : String)
    (b : ReqBody) (now : Nat) :
    bodyValid { b with price := some (JsNum.num 0) } =
      (truthy b.modelName && truthy b.salonName && truthy b.date) ∧
    truthy (some "") = false ∧
    truthy none = false ∧
    putShoot d idp { b with modelName := some "" } now = (400, none, []) ∧
    putShoot d idp { b with salonName := some "" } now = (400, none, []) ∧
    putShoot d idp { b with date := some "" } now = (400, none, []) ∧
    putShoot d idp { b with price := none } now = (400, none, []) ∧
    putEditedShoot d idp { b with modelName := some "" } now = (400, none, []) ∧
    putEditedShoot d idp { b with salonName := some "" } now = (400, none, []) ∧
    putEditedShoot d idp { b with date := some "" } now = (400, none, []) ∧
    putEditedShoot d idp { b with price := none } now = (400, none, []) := by
  obtain ⟨m, sa, dt, p⟩ := b
  refine ⟨by simp [bodyValid], rfl, rfl, ?_, ?_, ?_, ?_, ?_, ?_, ?_, ?_⟩ <;>
    cases m <;> cases sa <;> cases dt <;> cases p <;>
      simp [putShoot, putEditedShoot]

theorem updateShoot_fst_isSome (d : DataStore) (id : String)
    (form : ShootFormData) (now : Nat) :
    (updateShoot d id form now).1.isSome = d.shoots.any (shootHasId id) := by
  rw [← updateFirst_isSome (shootHasId id) (applyForm form now) d.shoots]
  cases h : updateFirst (shootHasId id) (applyForm form now) d.shoots with
  | none => simp [updateShoot, h]
  | some r => simp [updateShoot, h]

theorem updateEditedShoot_fst_isSome (d : DataStore) (id : String)
    (form : ShootFormData) (now : Nat) :
    (updateEditedShoot d id form now).1.isSome =
      d.editedShoots.any (editedHasId id) := by
  rw [← updateFirst_isSome (editedHasId id) (applyFormEdited form now) d.editedShoots]
  cases h : updateFirst (editedHasId id) (applyFormEdited form now) d.editedShoots with
  | none => simp [updateEditedShoot, h]
  | some r => simp [updateEditedShoot, h]

/-- The form a handler builds from a passing body (the price is the
already-converted `Number(price)`). -/
def bodyFormOf (b : ReqBody) : Option ShootFormData :=
  match b.modelName, b.salonName, b.date, b.price with
  | some m, some sa, some dt, some p => some ⟨m, sa, dt, p⟩
  | _, _, _, _ => none

/-- C5 counterexample: a POST body whose `price` is a present non-numeric
value (so `Number(price)` is NaN), and one whose price is the negative
number -5, both pass the Façade's validation: the response is 201 — not the
400 the claim requires for a non-numeric price — and the store is invoked
with NaN (resp. with -5, which is not non-negative). -/
theorem c5_counterexample :
    (postShoots emptyStore ⟨some "Ava", some "Luxe", some "2024-03-01",
        some JsNum.nan⟩ "u" 5).1 = 201 ∧
    (postShoots emptyStore ⟨some "Ava", some "Luxe", some "2024-03-01",
        some JsNum.nan⟩ "u" 5).2.1 =
      some ⟨"Ava", "Luxe", "2024-03-01", JsNum.nan⟩ ∧
    (postShoots emptyStore ⟨some "Ava", some "Luxe", some "2024-03-01",
        some (JsNum.num (-5))⟩ "u" 5).1 = 201 ∧
    (postShoots emptyStore ⟨some "Ava", some "Luxe", some "2024-03-01",
        some (JsNum.num (-5))⟩ "u" 5).2.1 =
      some ⟨"Ava", "Luxe", "2024-03-01", JsNum.num (-5)⟩ ∧
    ¬ ((0 : ℚ) ≤ -5) := by
  refine ⟨?_, ?_, ?_, ?_, by norm_num⟩ <;> rfl

/-- C5 (amended): the Façade responds 400 exactly when `modelName`,
`salonName` or `date` is absent or empty or `price` is null/undefined;
whenever validation passes, the store is invoked with the body's four
fields, the price being `Number(price)` unchanged — no numericness,
finiteness or sign check is performed — and a failing request never reaches
the store and writes nothing. -/
theorem c5_amended_validation (d : DataStore) (b : ReqBody) (fid idp : String)
    (now : Nat) :
    ((postShoots d b fid now).1 = if bodyValid b then 201 else 400) ∧
    ((postShoots d b fid now).2.1 = if bodyValid b then bodyFormOf b else none) ∧
    ((postShoots d b fid now).2.2.length = if bodyValid b then 1 else 0) ∧
    ((putShoot d idp b now).1 = if bodyValid b then
        (if d.shoots.any (shootHasId idp) then 200 else 404) else 400) ∧
    ((putShoot d idp b now).2.1 = if bodyValid b then bodyFormOf b else none) ∧
    ((putEditedShoot d idp b now).1 = if bodyValid b then
        (if d.editedShoots.any (editedHasId idp) then 200 else 404) else 400) ∧
    ((putEditedShoot d idp b now).2.1 = if bodyValid b then bodyFormOf b else none) ∧
    ((postShoots d b fid now).2.1.map ShootFormData.price =
      if bodyValid b then b.price else none) := by
  obtain ⟨m, sa, dt, p⟩ := b
  cases m with
  | none => cases sa <;> cases dt <;> cases p <;>
      simp [postShoots, putShoot, putEditedShoot, bodyValid, truthy, bodyFormOf]
  | some m =>
    cases sa with
    | none => cases dt <;> cases p <;>
        simp [postShoots, putShoot, putEditedShoot, bodyValid, truthy, bodyFormOf]
    | some sa =>
      cases dt with
      | none => cases p <;>
          simp [postShoots, putShoot, putEditedShoot, bodyValid, truthy, bodyFormOf]
      | some dt =>
        cases p with
        | none =>
          simp [postShoots, putShoot, putEditedShoot, bodyValid, truthy, bodyFormOf]
        | some p =>
          by_cases hm : m = "" <;> by_cases hsa : sa = "" <;> by_cases hdt : dt = "" <;>
            simp [postShoots, putShoot, putEditedShoot, bodyValid, truthy, bodyFormOf,
              hm, hsa, hdt, createShoot, updateShoot_fst_isSome,
              updateEditedShoot_fst_isSome]

/-! ### Invariant lemmas for the transition system -/

theorem nodup_map_append_single {α β : Type} {g : α → β} {l : List α} {a : α}
    (h : (l.map g).Nodup) (ha : g a ∉ l.map g) : ((l ++ [a]).map g).Nodup := by
  rw [List.map_append]
  simp [List.nodup_append, h, ha]

theorem nodup_map_of_sublist {α β : Type} {g : α → β} {l l' : List α}
    (hsub : l'.Sublist l) (h : (l.map g).Nodup) : (l'.map g).Nodup :=
  List.Nodup.sublist (hsub.map g) h

theorem removeFirst_sublist {α : Type} {p : α → Bool} {l : List α} {a : α}
    {l' : List α} (h : removeFirst p l = some (a, l')) : l'.Sublist l := by
  obtain ⟨l1, l2, rfl, rfl, -, -⟩ := removeFirst_eq_some h
  exact (List.sublist_cons_self a l2).append_left l1

theorem updateFirst_map_eq {α β : Type} {p : α → Bool} {f : α → α}
    {g : α → β} (hg : ∀ x, g (f x) = g x) {l : List α} {b : α} {l' : List α}
    (h : updateFirst p f l = some (b, l')) : l'.map g = l.map g := by
  obtain ⟨l1, x, l2, rfl, -, rfl, -, -⟩ := updateFirst_eq_some h
  simp [hg]

theorem inv_of_reachable {d : DataStore} (hr : Reachable d) :
    (d.shoots.map Shoot.id).Nodup ∧ (d.editedShoots.map EditedShoot.id).Nodup := by
  induction hr with
  | empty => exact ⟨List.nodup_nil, List.nodup_nil⟩
  | step op hprev hf ih =>
    rename_i d
    obtain ⟨ihs, ihe⟩ := ih
    cases op with
    | create form fid now =>
      have hfid : fid ∉ allIds d := hf
      rw [allIds, List.mem_append] at hfid
      push_neg at hfid
      constructor
      · show ((d.shoots ++ [_]).map Shoot.id).Nodup
        exact nodup_map_append_single ihs (by simpa using hfid.1)
      · exact ihe
    | update id form now =>
      cases h : updateFirst (shootHasId id) (applyForm form now) d.shoots with
      | none => simpa [applyOp, updateShoot, h, runWrites] using ⟨ihs, ihe⟩
      | some r =>
        obtain ⟨u, l⟩ := r
        have hmap : l.map Shoot.id = d.shoots.map Shoot.id :=
          updateFirst_map_eq (f := applyForm form now) (g := Shoot.id) (fun x => rfl) h
        simpa [applyOp, updateShoot, h, runWrites, hmap] using ⟨ihs, ihe⟩
    | remove id =>
      cases h : removeFirst (shootHasId id) d.shoots with
      | none => simpa [applyOp, deleteShoot, h, runWrites] using ⟨ihs, ihe⟩
      | some r =>
        obtain ⟨x, l⟩ := r
        have hsub := removeFirst_sublist h
        simpa [applyOp, deleteShoot, h, runWrites] using
          ⟨nodup_map_of_sublist hsub ihs, ihe⟩
    | move id fid now =>
      have hfid : fid ∉ allIds d := hf
      rw [allIds, List.mem_append] at hfid
      push_neg at hfid
      cases h : removeFirst (shootHasId id) d.shoots with
      | none => simpa [applyOp, moveShootToEdited, h, runWrites] using ⟨ihs, ihe⟩
      | some r =>
        obtain ⟨x, l⟩ := r
        have hsub := removeFirst_sublist h
        refine ⟨?_, ?_⟩
        · simpa [applyOp, moveShootToEdited, h, runWrites] using
            nodup_map_of_sublist hsub ihs
        · have hne : (⟨fid, x.id, x.modelName, x.salonName, x.date, x.price,
              x.createdAt, now⟩ : EditedShoot).id ∉
              d.editedShoots.map EditedShoot.id := by simpa using hfid.2
          simpa [applyOp, moveShootToEdited, h, runWrites] using
            nodup_map_append_single ihe hne
    | updateEdited id form now =>
      cases h : updateFirst (editedHasId id) (applyFormEdited form now) d.editedShoots with
      | none => simpa [applyOp, updateEditedShoot, h, runWrites] using ⟨ihs, ihe⟩
      | some r =>
        obtain ⟨u, l⟩ := r
        have hmap : l.map EditedShoot.id = d.editedShoots.map EditedShoot.id :=
          updateFirst_map_eq (f := applyFormEdited form now) (g := EditedShoot.id) (fun x => rfl) h
        simpa [applyOp, updateEditedShoot, h, runWrites, hmap] using ⟨ihs, ihe⟩
    | moveBack id fid now =>
      have hfid : fid ∉ allIds d := hf
      rw [allIds, List.mem_append] at hfid
      push_neg at hfid
      cases h : removeFirst (editedHasId id) d.editedShoots with
      | none => simpa [applyOp, moveEditedShootBack, h, runWrites] using ⟨ihs, ihe⟩
      | some r =>
        obtain ⟨x, l⟩ := r
        have hsub := removeFirst_sublist h
        refine ⟨?_, ?_⟩
        · have hne : (⟨fid, x.modelName, x.salonName, x.date, x.price,
              x.createdAt, now⟩ : Shoot).id ∉
              d.shoots.map Shoot.id := by simpa using hfid.1
          simpa [applyOp, moveEditedShootBack, h, runWrites] using
            nodup_map_append_single ihs hne
        · simpa [applyOp, moveEditedShootBack, h, runWrites] using
            nodup_map_of_sublist hsub ihe
    | removeEdited id =>
      cases h : removeFirst (editedHasId id) d.editedShoots with
      | none => simpa [applyOp, deleteEditedShoot, h, runWrites] using ⟨ihs, ihe⟩
      | some r =>
        obtain ⟨x, l⟩ := r
        have hsub := removeFirst_sublist h
        simpa [applyOp, deleteEditedShoot, h, runWrites] using
          ⟨ihs, nodup_map_of_sublist hsub ihe⟩

theorem removeFirst_rest_id_ne {α : Type} {g : α → String} {k : String}
    {l : List α} {a : α} {l' : List α}
    (h : removeFirst (fun x => g x == k) l = some (a, l'))
    (hnod : (l.map g).Nodup) : ∀ x ∈ l', g x ≠ k := by
  obtain ⟨l1, l2, rfl, rfl, hpa, hl1⟩ := removeFirst_eq_some h
  have hga : g a = k := by simpa using hpa
  intro x hx
  rcases List.mem_append.mp hx with h1 | h2
  · have := hl1 x h1
    simpa using this
  · rw [List.map_append, List.map_cons] at hnod
    have hnotin : g a ∉ l2.map g := (List.nodup_cons.mp hnod.of_append_right).1
    intro hk
    exact hnotin (by rw [hga, ← hk]; exact List.mem_map_of_mem g h2)

/-- C3: in every document reachable from the empty store, identifiers are
unique within each bucket; and every successful move with a freshly minted
identifier creates its record in the destination bucket under that new
identifier — always distinct from the identifier it had in the source
bucket — while the old identifier disappears from the source bucket, both
bucket invariants being preserved. -/
theorem c3_reachable_invariants (d : DataStore) (hr : Reachable d) :
    (d.shoots.map Shoot.id).Nodup ∧
    (d.editedShoots.map EditedShoot.id).Nodup ∧
    (∀ id fid now e d', fid ∉ allIds d →
      moveShootToEdited d id fid now = (some e, [d']) →
      e.id = fid ∧ fid ≠ id ∧ e ∈ d'.editedShoots ∧
      (∀ s ∈ d'.shoots, s.id ≠ id) ∧
      (d'.shoots.map Shoot.id).Nodup ∧
      (d'.editedShoots.map EditedShoot.id).Nodup) ∧
    (∀ id fid now sh d', fid ∉ allIds d →
      moveEditedShootBack d id fid now = (some sh, [d']) →
      sh.id = fid ∧ fid ≠ id ∧ sh ∈ d'.shoots ∧
      (∀ x ∈ d'.editedShoots, x.id ≠ id) ∧
      (d'.shoots.map Shoot.id).Nodup ∧
      (d'.editedShoots.map EditedShoot.id).Nodup) := by
  obtain ⟨hs, he⟩ := inv_of_reachable hr
  refine ⟨hs, he, ?_, ?_⟩
  · intro id fid now e d' hfresh hmv
    cases h : removeFirst (shootHasId id) d.shoots with
    | none => simp [moveShootToEdited, h] at hmv
    | some r =>
      obtain ⟨x, rest⟩ := r
      have hmv' := hmv
      simp [moveShootToEdited, h] at hmv'
      obtain ⟨he', hd'⟩ := hmv'
      obtain ⟨l1, l2, hdec, hrest, hpx, -⟩ := removeFirst_eq_some h
      have hxid : x.id = id := by simpa [shootHasId] using hpx
      have hmem : x ∈ d.shoots := by rw [hdec]; simp
      have hidin : id ∈ allIds d := by
        rw [allIds, List.mem_append]
        exact Or.inl (hxid ▸ List.mem_map_of_mem Shoot.id hmem)
      have hinv' : (d'.shoots.map Shoot.id).Nodup ∧
          (d'.editedShoots.map EditedShoot.id).Nodup := by
        have hstep := Reachable.step (StoreOp.move id fid now) hr hfresh
        have happ : applyOp d (StoreOp.move id fid now) = d' := by
          simp [applyOp, hmv, runWrites]
        rw [happ] at hstep
        exact inv_of_reachable hstep
      refine ⟨by rw [← he'], fun hfi => hfresh (hfi ▸ hidin), ?_, ?_,
        hinv'.1, hinv'.2⟩
      · rw [← hd', ← he']
        simp
      · intro s hsmem
        have h' : removeFirst (fun s => Shoot.id s == id) d.shoots =
            some (x, rest) := h
        have := removeFirst_rest_id_ne h' hs
        apply this
        rw [← hd'] at hsmem
        exact hsmem
  · intro id fid now sh d' hfresh hmv
    cases h : removeFirst (editedHasId id) d.editedShoots with
    | none => simp [moveEditedShootBack, h] at hmv
    | some r =>
      obtain ⟨x, rest⟩ := r
      have hmv' := hmv
      simp [moveEditedShootBack, h] at hmv'
      obtain ⟨he', hd'⟩ := hmv'
      obtain ⟨l1, l2, hdec, hrest, hpx, -⟩ := removeFirst_eq_some h
      have hxid : x.id = id := by simpa [editedHasId] using hpx
      have hmem : x ∈ d.editedShoots := by rw [hdec]; simp
      have hidin : id ∈ allIds d := by
        rw [allIds, List.mem_append]
        exact Or.inr (hxid ▸ List.mem_map_of_mem EditedShoot.id hmem)
      have hinv' : (d'.shoots.map Shoot.id).Nodup ∧
          (d'.editedShoots.map EditedShoot.id).Nodup := by
        have hstep := Reachable.step (StoreOp.moveBack id fid now) hr hfresh
        have happ : applyOp d (StoreOp.moveBack id fid now) = d' := by
          simp [applyOp, hmv, runWrites]
        rw [happ] at hstep
        exact inv_of_reachable hstep
      refine ⟨by rw [← he'], fun hfi => hfresh (hfi ▸ hidin), ?_, ?_,
        hinv'.1, hinv'.2⟩
      · rw [← hd', ← he']
        simp
      · intro s hsmem
        have h' : removeFirst (fun s => EditedShoot.id s == id) d.editedShoots =
            some (x, rest) := h
        have := removeFirst_rest_id_ne h' he
        apply this
        rw [← hd'] at hsmem
        exact hsmem

/-- `sampleStore` is reachable: it is the result of one create on the empty
store. -/
theorem reachable_sampleStore : Reachable sampleStore := by
  have h := Reachable.step
    (StoreOp.create ⟨"Ava", "Luxe", "2024-03-01", JsNum.num 150⟩ "a" 1)
    Reachable.empty (by simp [opFresh, allIds, emptyStore])
  simpa [applyOp, createShoot, runWrites, emptyStore, sampleStore,
    sampleShoot] using h

/-- C3 witness: the theorem applied to the concrete reachable store. -/
theorem c3_reachable_invariants_witness :
    (sampleStore.shoots.map Shoot.id).Nodup ∧
    (sampleStore.editedShoots.map EditedShoot.id).Nodup ∧
    (∀ id fid now e d', fid ∉ allIds sampleStore →
      moveShootToEdited sampleStore id fid now = (some e, [d']) →
      e.id = fid ∧ fid ≠ id ∧ e ∈ d'.editedShoots ∧
      (∀ s ∈ d'.shoots, s.id ≠ id) ∧
      (d'.shoots.map Shoot.id).Nodup ∧
      (d'.editedShoots.map EditedShoot.id).Nodup) ∧
    (∀ id fid now sh d', fid ∉ allIds sampleStore →
      moveEditedShootBack sampleStore id fid now = (some sh, [d']) →
      sh.id = fid ∧ fid ≠ id ∧ sh ∈ d'.shoots ∧
      (∀ x ∈ d'.editedShoots, x.id ≠ id) ∧
      (d'.shoots.map Shoot.id).Nodup ∧
      (d'.editedShoots.map EditedShoot.id).Nodup) :=
  c3_reachable_invariants sampleStore reachable_sampleStore

/-! ### Lemmas about the statistics computation -/

